import Mathlib

/-!
Verification development for the bowie-tracker pipeline.

The Python sources are embedded shallowly:
  - `fetch_bowie_data.py`: the rate-limited fetcher (`fetch_json`), the
    merge/dedup engine (the body of the per-release loop in
    `get_all_recordings`, here `mergeRecord`), the detail-phase crawl loop
    (`crawlStep` / `crawlRun`) and the checkpoint file writes
    (`periodicCheckpointOps` / `finalPersistOps`).
  - `generate_lookup.py`: `rg_score`, the stable descending sort, and the
    single pass that populates `release_groups`, `recordings` and
    `track_durations` (`build_lookup`).
  - `process_lookup.py`: the name-map construction (`process_metadata`).

JSON dictionaries indexed by string keys are modelled as insertion-ordered
association lists (`alistFind` / `alistSet`), matching Python dict
semantics (updating an existing key keeps its position, a new key is
appended).  Python truthiness is modelled where the source relies on it:
a missing or empty string is falsy, a missing or zero integer is falsy.
`str.lower` is modelled for ASCII (`lowerStr`), which covers every string
the claims are about, and the Python substring operator `in` is
`strContains`.
-/

namespace BowieTracker

/-! ### Python-style string and option helpers -/

/-- ASCII lower-casing of one character, as `str.lower` acts on ASCII. -/
def lowerChar (c : Char) : Char :=
  if 'A' ≤ c ∧ c ≤ 'Z' then Char.ofNat (c.toNat + 32) else c

/-- ASCII `str.lower`. -/
def lowerStr (s : String) : String := ⟨s.data.map lowerChar⟩

/-- Boolean prefix test on character lists. -/
def listPre : List Char → List Char → Bool
  | [], _ => true
  | _ :: _, [] => false
  | a :: as, b :: bs => a == b && listPre as bs

/-- Boolean infix (substring) test on character lists. -/
def listSub (n : List Char) : List Char → Bool
  | [] => n.isEmpty
  | c :: rest => listPre n (c :: rest) || listSub n rest

/-- Python `needle in hay` for strings. -/
def strContains (hay needle : String) : Bool := listSub needle.data hay.data

/-- Python `a or b` where `a` is an optional integer and `None` and `0` are
falsy: models `track.get("length") or ...` chains. -/
def pyOrNat : Option Nat → Nat → Nat
  | some n, d => if n = 0 then d else n
  | none, d => d

/-- Association-list lookup, Python `d.get(k)` / `k in d`. -/
def alistFind {α : Type} : List (String × α) → String → Option α
  | [], _ => none
  | (k', v) :: rest, k => if k' = k then some v else alistFind rest k

/-- Association-list store, Python `d[k] = v`: an existing key keeps its
position, a new key is appended at the end (dict insertion order). -/
def alistSet {α : Type} : List (String × α) → String → α → List (String × α)
  | [], k, v => [(k, v)]
  | (k', v') :: rest, k, v =>
    if k' = k then (k', v) :: rest else (k', v') :: alistSet rest k v

/-! ### Source data model (the JSON shapes `fetch_bowie_data.py` consumes) -/

/-- The `recording` sub-object of a track: `rec.get("id")`,
`rec.get("title")`, `rec.get("length")`.  A release-detail track whose
`recording` key is absent behaves exactly like one whose recording has all
three keys absent, so that case is modelled by the all-`none` recording. -/
structure SrcRecording where
  id : Option String
  title : Option String
  length : Option Nat
deriving DecidableEq

/-- One track of a release-detail medium.  `titleKey` distinguishes an
absent `"title"` key (`none`) from a present one (`some v`, where `v` may
be JSON null), because the source uses `track.get("title", rec.get("title"))`
whose default fires only when the key is absent. -/
structure SrcTrack where
  titleKey : Option (Option String)
  length : Option Nat
  recording : SrcRecording
deriving DecidableEq

/-- One entry of the `media` list of a release detail. -/
structure Medium where
  tracks : List SrcTrack
deriving DecidableEq

/-- The `release-group` sub-object of a listed release
(`rel.get("release-group", {})`); an absent key is the all-`none` group. -/
structure SrcReleaseGroup where
  id : Option String
  titleKey : Option (Option String)
  primaryType : Option String
deriving DecidableEq

/-- One release from the paginated list endpoint.  `coverFront` is the
truthiness of `rel.get("cover-art-archive", {}).get("front")`. -/
structure SrcRelease where
  id : String
  title : String
  releaseGroup : SrcReleaseGroup
  coverFront : Bool
deriving DecidableEq

/-! ### Persisted database model -/

/-- One element of a release group's `"tracks"` list, as written by the
merge engine: keys `"id"`, `"title"` (may be null), `"duration_ms"`. -/
structure TrackEntry where
  id : String
  title : Option String
  duration_ms : Nat
deriving DecidableEq

/-- One value of the database dict `final_db`, keyed by release-group id:
keys `"title"`, `"type"`, `"track_count"`, `"image_url"`, `"tracks"`. -/
structure RGRecord where
  title : Option String
  type : Option String
  track_count : Nat
  image_url : Option String
  tracks : List TrackEntry
deriving DecidableEq

/-! ### Merge/Dedup Engine (`get_all_recordings`, lines 94-123) -/

/-- Track title: `track.get("title", rec.get("title"))`. -/
def trackTitle (t : SrcTrack) : Option String :=
  match t.titleKey with
  | some v => v
  | none => t.recording.title

/-- Track duration: `track.get("length") or rec.get("length") or 0`. -/
def trackDuration (t : SrcTrack) : Nat :=
  pyOrNat t.length (pyOrNat t.recording.length 0)

/-- Fresh release-group record (lines 94-101): title is
`rg.get("title", rel["title"])`, type is `rg.get("primary-type")`. -/
def initRecord (rel : SrcRelease) : RGRecord :=
  { title := match rel.releaseGroup.titleKey with
             | some v => v
             | none => some rel.title
    type := rel.releaseGroup.primaryType
    track_count := 0
    image_url := none
    tracks := [] }

/-- The cover-art URL built for a release id (line 105). -/
def imageUrlFor (relId : String) : String :=
  "https://coverartarchive.org/release/" ++ relId ++ "/front-250"

/-- Image assignment (lines 103-105): set only if the current value is
falsy (absent, null or empty) and the release exposes front cover art. -/
def applyImage (r : RGRecord) (rel : SrcRelease) : RGRecord :=
  if r.image_url.getD "" = "" ∧ rel.coverFront then
    { r with image_url := some (imageUrlFor rel.id) }
  else r

/-- The inner track loop (lines 110-121): append a new entry only when the
recording id is truthy and not yet in `seen` (`existing_track_ids`). -/
def foldTracks : List SrcTrack → List TrackEntry → List String → List TrackEntry
  | [], acc, _ => acc
  | t :: ts, acc, seen =>
    if t.recording.id.getD "" ≠ "" ∧ t.recording.id.getD "" ∉ seen then
      foldTracks ts
        (acc ++ [{ id := t.recording.id.getD "", title := trackTitle t,
                   duration_ms := trackDuration t }])
        (t.recording.id.getD "" :: seen)
    else
      foldTracks ts acc seen

/-- One fold of the merge/dedup engine: the body of the per-release loop
restricted to lines 94-123, as a function of the existing record (if any),
the listed release and the detail payload's media list. -/
def mergeRecord (old : Option RGRecord) (rel : SrcRelease) (media : List Medium) :
    RGRecord :=
  let r0 := match old with
            | some r => r
            | none => initRecord rel
  let r1 := applyImage r0 rel
  let ts := media.flatMap Medium.tracks
  { r1 with
    tracks := foldTracks ts r1.tracks (r1.tracks.map TrackEntry.id)
    track_count := max r1.track_count ts.length }

/-! ### Rate-limited Fetcher (`fetch_json`, lines 19-32) -/

/-- Outcome of one attempt: a 200 response with parsed body, a non-200
status, or a transport-level exception. -/
inductive AttemptOutcome (α : Type) where
  | success (body : α)
  | httpError (code : Nat)
  | transportError
deriving DecidableEq

/-- Whether an attempt outcome is an HTTP 200 success. -/
def AttemptOutcome.isSuccess {α : Type} : AttemptOutcome α → Bool
  | .success _ => true
  | _ => false

/-- The retry loop of `fetch_json` over an oracle of per-attempt outcomes:
first component is the returned value, second the number of attempts made. -/
def fetchAux {α : Type} (o : Nat → AttemptOutcome α) : Nat → Nat → Option α × Nat
  | _, 0 => (none, 0)
  | i, fuel + 1 =>
    match o i with
    | .success b => (some b, 1)
    | _ =>
      let r := fetchAux o (i + 1) fuel
      (r.1, r.2 + 1)

/-- Result of `fetch_json`: the body of the first 200 within 5 attempts,
else `None`. -/
def fetch_json {α : Type} (o : Nat → AttemptOutcome α) : Option α :=
  (fetchAux o 0 5).1

/-- Number of attempts `fetch_json` issues against the oracle. -/
def fetchAttempts {α : Type} (o : Nat → AttemptOutcome α) : Nat :=
  (fetchAux o 0 5).2

/-! ### Checkpoint file operations (lines 127-137) and a crash model -/

/-- File-system operations the persistence code performs: a plain write to
a path, or an atomic rename. -/
inductive FsOp where
  | write (path : String)
  | rename (src dst : String)
deriving DecidableEq

def OUTPUT_FILE : String := "bowie_metadata.json"

def PROGRESS_FILE : String := ".processed_releases.json"

/-- The periodic checkpoint (lines 127-132): the database goes through a
temporary file plus `os.replace`, the progress file is written directly. -/
def periodicCheckpointOps : List FsOp :=
  [.write (OUTPUT_FILE ++ ".tmp"),
   .rename (OUTPUT_FILE ++ ".tmp") OUTPUT_FILE,
   .write PROGRESS_FILE]

/-- The unconditional persist at the end of the run (lines 134-137): both
files are written directly. -/
def finalPersistOps : List FsOp :=
  [.write OUTPUT_FILE, .write PROGRESS_FILE]

/-- Content of a file as observed after a crash: the complete pre-write
version, the complete post-write version, or a torn partial write. -/
inductive FileView where
  | oldV
  | newV
  | partialV
deriving DecidableEq

/-- Pointwise update of a file-system snapshot. -/
def fsUpdate (s : String → FileView) (p : String) (v : FileView) :
    String → FileView :=
  fun q => if q = p then v else s q

/-- Effect of a completed operation: a finished write leaves the new
version; a rename atomically moves the source's content onto the target. -/
def applyOp (s : String → FileView) : FsOp → (String → FileView)
  | .write p => fsUpdate s p .newV
  | .rename src dst => fsUpdate s dst (s src)

/-- All views of path `p` observable if the process crashes at any point
while executing the operation list: before each operation, in the middle
of any plain write (which may be torn), and after the last operation.
A rename has no intermediate state: it is atomic. -/
def crashViews (p : String) : List FsOp → (String → FileView) → List FileView
  | [], s => [s p]
  | op :: rest, s =>
    s p ::
      (match op with
       | .write q => [fsUpdate s q .partialV p]
       | .rename _ _ => []) ++
      crashViews p rest (applyOp s op)

/-- Snapshot before a persistence routine starts: every path holds its
complete previous version. -/
def initFs : String → FileView := fun _ => .oldV

/-! ### Checkpointed Crawler, detail phase (lines 72-137) -/

/-- State carried across the detail-phase loop.  `attempted` is the
source's `processed_this_run` counter (incremented before the detail
fetch), `fetched` records the release ids for which a detail fetch was
issued, `ckpts` counts periodic checkpoints, and `ops` logs the file
operations performed. -/
structure CrawlState where
  db : List (String × RGRecord)
  processed : List String
  attempted : Nat
  fetched : List String
  ckpts : Nat
  ops : List FsOp
deriving DecidableEq

/-- A fresh run with empty database and empty ProcessedSet. -/
def initCrawl : CrawlState :=
  { db := [], processed := [], attempted := 0, fetched := [], ckpts := 0, ops := [] }

/-- One iteration of the detail-phase loop (lines 72-132) on a release
paired with its detail-fetch outcome.  The outcome is `none` when
`fetch_json` returned `None` or a falsy payload (the source's
`if not details` treats both identically), and `some media` is the
payload's `media` list otherwise. -/
def crawlStep (st : CrawlState) (inp : SrcRelease × Option (List Medium)) :
    CrawlState :=
  let rel := inp.1
  let rgid := rel.releaseGroup.id.getD ""
  if rel.id ∈ st.processed then st
  else if rgid = "" then st
  else
    let st1 := { st with attempted := st.attempted + 1
                         fetched := st.fetched ++ [rel.id] }
    match inp.2 with
    | none => st1
    | some media =>
      let st2 := { st1 with
        db := alistSet st1.db rgid (mergeRecord (alistFind st1.db rgid) rel media)
        processed := st1.processed ++ [rel.id] }
      if st2.attempted % 10 = 0 then
        { st2 with ckpts := st2.ckpts + 1, ops := st2.ops ++ periodicCheckpointOps }
      else st2

/-- The whole detail phase: fold the loop over the discovered releases,
then persist once more unconditionally (lines 134-137). -/
def crawlRun (st : CrawlState) (inputs : List (SrcRelease × Option (List Medium))) :
    CrawlState :=
  let e := inputs.foldl crawlStep st
  { e with ops := e.ops ++ finalPersistOps }

/-! ### Lookup Builder (`generate_lookup.py`) -/

/-- The canonical studio album title list, in source order. -/
def CANONICAL_ALBUMS : List String :=
  ["david bowie", "space oddity", "the man who sold the world", "hunky dory",
   "the rise and fall of ziggy stardust and the spiders from mars", "aladdin sane",
   "pin ups", "diamond dogs", "young americans", "station to station", "low",
   "\"heroes\"", "lodger", "scary monsters (and super creeps)", "let's dance",
   "tonight", "never let me down", "black tie white noise", "the buddha of suburbia",
   "outside", "earthling", "hours", "heathen", "reality", "the next day", "blackstar",
   "toy"]

/-- Canonical score of a release group (`rg_score`, lines 24-52).  The
source reads the title with `data.get("title", "")` and lower-cases it;
the database writer always stores the `"title"` key, so the default fires
never and a stored null would crash the source — the claims below restrict
to databases whose titles are strings, where `getD ""` coincides. -/
def rg_score (data : RGRecord) : Int :=
  let title := lowerStr (data.title.getD "")
  let base : Int :=
    if CANONICAL_ALBUMS.any (fun canon => strContains title canon) then
      1000 - (title.length : Int)
    else
      (if strContains title ("live") then (-200 : Int) else 0) +
      (if strContains title ("collection") then (-100 : Int) else 0) +
      (if strContains title ("best of") then (-100 : Int) else 0) +
      (if strContains title ("anthology") then (-100 : Int) else 0) +
      (if strContains title ("greatest hits") then (-100 : Int) else 0) +
      (if title = "best" then (-500 : Int) else 0) -
      (title.length : Int)
  base + (if data.image_url.getD "" = "" then 0 else 50)

/-- Stable insertion of a release group into a score-descending list: it
goes in front of the first element whose score is not larger, so earlier
input elements precede later ones of equal score.  This is extensionally
the source's `sorted(..., key=rg_score, reverse=True)`, which is a stable
descending sort. -/
def insertByScore (x : String × RGRecord) :
    List (String × RGRecord) → List (String × RGRecord)
  | [] => [x]
  | y :: ys =>
    if rg_score y.2 ≤ rg_score x.2 then x :: y :: ys
    else y :: insertByScore x ys

/-- Stable sort of the database items by descending canonical score. -/
def sortedRGs : List (String × RGRecord) → List (String × RGRecord)
  | [] => []
  | x :: xs => insertByScore x (sortedRGs xs)

/-- The value stored in `release_groups`: `[title, image, count, type]`. -/
def rgTuple (r : RGRecord) : Option String × Option String × Nat × Option String :=
  (r.title, r.image_url, r.track_count, r.type)

/-- The lookup index produced by `build_lookup`. -/
structure Lookup where
  recordings : List (String × String)
  release_groups : List (String × (Option String × Option String × Nat × Option String))
  track_durations : List (String × Nat)
deriving DecidableEq

/-- The inner track loop of `build_lookup` (lines 68-78): skip falsy
recording ids, store a truthy duration (overwriting), and claim the id for
this group only if no earlier group claimed it. -/
def lookupTrackStep (rgId : String) (lk : Lookup) (t : TrackEntry) : Lookup :=
  if t.id = "" then lk
  else
    let lk1 :=
      if t.duration_ms ≠ 0 then
        { lk with track_durations := alistSet lk.track_durations t.id t.duration_ms }
      else lk
    if alistFind lk1.recordings t.id = none then
      { lk1 with recordings := alistSet lk1.recordings t.id rgId }
    else lk1

/-- One release group's contribution to the lookup (lines 60-78). -/
def lookupGroupStep (lk : Lookup) (g : String × RGRecord) : Lookup :=
  let lk1 := { lk with release_groups := alistSet lk.release_groups g.1 (rgTuple g.2) }
  g.2.tracks.foldl (lookupTrackStep g.1) lk1

/-- The whole of `build_lookup` on a loaded database. -/
def build_lookup (db : List (String × RGRecord)) : Lookup :=
  (sortedRGs db).foldl lookupGroupStep
    { recordings := [], release_groups := [], track_durations := [] }

/-- The `track_durations` part of the iteration, as a function of the
iteration order, used to state order-(in)dependence. -/
def durTrackStep (durs : List (String × Nat)) (t : TrackEntry) : List (String × Nat) :=
  if t.id = "" then durs
  else if t.duration_ms ≠ 0 then alistSet durs t.id t.duration_ms
  else durs

/-- Folding only the duration updates of `build_lookup` over the groups in
the given order. -/
def durationsOf (l : List (String × RGRecord)) : List (String × Nat) :=
  l.foldl (fun durs g => g.2.tracks.foldl durTrackStep durs) []

/-- The `recordings` part of the iteration, as a function of the order. -/
def recTrackStep (rgId : String) (recs : List (String × String)) (t : TrackEntry) :
    List (String × String) :=
  if t.id = "" then recs
  else if alistFind recs t.id = none then alistSet recs t.id rgId
  else recs

/-- Folding only the recording-claim updates of `build_lookup`. -/
def recordingsOf (l : List (String × RGRecord)) : List (String × String) :=
  l.foldl (fun recs g => g.2.tracks.foldl (recTrackStep g.1) recs) []

/-- Whether a release group's track list contains the recording id. -/
def groupHasRec (g : String × RGRecord) (tid : String) : Bool :=
  g.2.tracks.any (fun t => t.id == tid)

/-- Folding only the `release_groups` updates of `build_lookup`. -/
def rgListOf (l : List (String × RGRecord)) :
    List (String × (Option String × Option String × Nat × Option String)) :=
  l.foldl (fun acc g => alistSet acc g.1 (rgTuple g.2)) []

/-! ### Name Index Builder (`process_lookup.py`) -/

/-- Append a pair to a name's candidate list (lines 22-28): create the
list if the key is new, and skip the pair if it is already present. -/
def nmAdd (nm : List (String × List (String × String))) (key : String)
    (pr : String × String) : List (String × List (String × String)) :=
  match alistFind nm key with
  | none => alistSet nm key [pr]
  | some l => if pr ∈ l then nm else alistSet nm key (l ++ [pr])

/-- One track's contribution to the name map (lines 15-28): skip if the
recording id or the title is falsy, else case-fold the title and add. -/
def nameMapTrack (rgId : String) (nm : List (String × List (String × String)))
    (t : TrackEntry) : List (String × List (String × String)) :=
  if t.id = "" then nm
  else
    match t.title with
    | none => nm
    | some s => if s = "" then nm else nmAdd nm (lowerStr s) (t.id, rgId)

/-- One release group's contribution to the name map. -/
def nameMapGroup (nm : List (String × List (String × String)))
    (g : String × RGRecord) : List (String × List (String × String)) :=
  g.2.tracks.foldl (nameMapTrack g.1) nm

/-- The name map `process_metadata` builds from the raw database. -/
def process_metadata (db : List (String × RGRecord)) :
    List (String × List (String × String)) :=
  db.foldl nameMapGroup []

/-- Candidate list stored under a normalized name (empty if absent). -/
def nmGet (nm : List (String × List (String × String))) (key : String) :
    List (String × String) :=
  (alistFind nm key).getD []

/-! ### Invariants and concrete sample inputs used by the theorems below -/

/-- Track-id uniqueness invariant of a release-group record. -/
def uniqueIds (r : RGRecord) : Prop :=
  (r.tracks.map TrackEntry.id).Nodup

/-- A sample listed release with a release group and front cover art. -/
def relW : SrcRelease :=
  ⟨"rel-1", "Low", ⟨some "rg-1", some (some "Low"), some "Album"⟩, true⟩

/-- A sample detail payload with one medium holding one track. -/
def mediaW : List Medium :=
  [⟨[⟨some (some "Sound and Vision"), some 185000,
      ⟨some "rec-1", some "Sound and Vision", some 184000⟩⟩]⟩]

/-- A sample database record holding one track. -/
def rW : RGRecord :=
  ⟨some "Low", some "Album", 1, none, [⟨"rec-0", some "Speed of Life", 166000⟩]⟩

/-- A crawl state that has already processed release `rel-1`. -/
def stW : CrawlState := { initCrawl with processed := ["rel-1"] }

/-- Release groups used to compare canonical scores. -/
def lowRec : RGRecord := ⟨some "Low", none, 0, none, []⟩

def libRec : RGRecord := ⟨some "Live in Berlin (Live)", none, 0, none, []⟩

def ghRec : RGRecord := ⟨some "Greatest Hits", none, 0, none, []⟩

/-- A release with the given id, all in release group `g`. -/
def mkRel (rid : String) : SrcRelease :=
  ⟨rid, "t", ⟨some "g", some (some "T"), none⟩, false⟩

/-- Eleven releases where the tenth detail fetch fails and the others
succeed: ten successes in total. -/
def cadenceCexInputs : List (SrcRelease × Option (List Medium)) :=
  (List.range 11).map
    (fun n => (mkRel (toString n), if n = 9 then none else some []))

/-- One hundred and fifty releases whose detail fetches all succeed. -/
def allSuccessInputs : List (SrcRelease × Option (List Medium)) :=
  (List.range 150).map (fun n => (mkRel (toString n), some []))

/-- Two release groups, alike except for their duration for the shared
recording id `r`; their canonical scores are equal. -/
def grpA : String × RGRecord :=
  ("g1", ⟨some "t", none, 1, none, [⟨"r", some "x", 100⟩]⟩)

def grpB : String × RGRecord :=
  ("g2", ⟨some "t", none, 1, none, [⟨"r", some "x", 200⟩]⟩)

/-- A sample database with two groups sharing a recording id and a track
name. -/
def dbW : List (String × RGRecord) := [grpA, grpB]

/-- Attempt oracle whose first attempt succeeds. -/
def oracleOk : Nat → AttemptOutcome Nat :=
  fun i => if i = 0 then .success 7 else .transportError

/-- Attempt oracle that always fails at transport level. -/
def oracleFail : Nat → AttemptOutcome Nat := fun _ => .transportError

/-! ### Association-list lemmas -/

lemma alistFind_alistSet {α : Type} (l : List (String × α)) (k q : String) (v : α) :
    alistFind (alistSet l k v) q = if k = q then some v else alistFind l q := by
  induction l with
  | nil => by_cases h : k = q <;> simp [alistSet, alistFind, h]
  | cons p rest ih =>
    obtain ⟨k', v'⟩ := p
    by_cases hk : k' = k
    · subst hk
      by_cases hq : k' = q <;> simp [alistSet, alistFind, hq]
    · by_cases hq : k' = q
      · have hqk : ¬q = k := fun h => hk (hq.trans h)
        have hkq : ¬k = q := fun h => hqk h.symm
        simp [alistSet, alistFind, hk, hq, hkq, hqk]
      · simp [alistSet, alistFind, hk, hq, ih]

lemma mem_alistSet {α : Type} {p : String × α} {l : List (String × α)} {k : String}
    {v : α} (h : p ∈ alistSet l k v) : p ∈ l ∨ p = (k, v) := by
  induction l with
  | nil => simpa [alistSet] using h
  | cons q rest ih =>
    obtain ⟨k', v'⟩ := q
    by_cases hk : k' = k
    · subst hk
      simp only [alistSet, if_pos rfl] at h
      rcases List.mem_cons.mp h with rfl | h
      · exact Or.inr rfl
      · exact Or.inl (List.mem_cons_of_mem _ h)
    · simp only [alistSet, if_neg hk] at h
      rcases List.mem_cons.mp h with rfl | h
      · exact Or.inl (List.mem_cons_self _ _)
      · rcases ih h with h | h
        · exact Or.inl (List.mem_cons_of_mem _ h)
        · exact Or.inr h

lemma alistSet_of_find_none {α : Type} {l : List (String × α)} {k : String}
    (h : alistFind l k = none) (v : α) : alistSet l k v = l ++ [(k, v)] := by
  induction l with
  | nil => simp [alistSet]
  | cons p rest ih =>
    obtain ⟨k', v'⟩ := p
    by_cases hk : k' = k
    · simp [alistFind, hk] at h
    · simp only [alistFind, if_neg hk] at h
      simp [alistSet, hk, ih h]

lemma alistFind_append {α : Type} (a b : List (String × α)) (k : String) :
    alistFind (a ++ b) k =
      match alistFind a k with
      | some v => some v
      | none => alistFind b k := by
  induction a with
  | nil => simp [alistFind]
  | cons p rest ih =>
    obtain ⟨k', v'⟩ := p
    by_cases hk : k' = k <;> simp [alistFind, hk, ih]

lemma find?_append_of_isSome {α : Type} (p : α → Bool) {l1 : List α} (l2 : List α)
    (h : (l1.find? p).isSome) : (l1 ++ l2).find? p = l1.find? p := by
  induction l1 with
  | nil => simp at h
  | cons a l ih =>
    cases hp : p a
    · rw [List.cons_append]
      simp only [List.find?_cons, hp] at h ⊢
      exact ih h
    · rw [List.cons_append]
      simp [List.find?_cons, hp]

/-! ### Merge engine lemmas -/

lemma applyImage_tracks (r : RGRecord) (rel : SrcRelease) :
    (applyImage r rel).tracks = r.tracks := by
  unfold applyImage; split <;> rfl

lemma applyImage_count (r : RGRecord) (rel : SrcRelease) :
    (applyImage r rel).track_count = r.track_count := by
  unfold applyImage; split <;> rfl

lemma mergeRecord_tracks (old : Option RGRecord) (rel : SrcRelease)
    (media : List Medium) :
    (mergeRecord old rel media).tracks =
      foldTracks (media.flatMap Medium.tracks)
        ((applyImage (match old with | some r => r | none => initRecord rel) rel).tracks)
        (((applyImage (match old with | some r => r | none => initRecord rel)
            rel).tracks).map TrackEntry.id) := rfl

lemma mergeRecord_count (old : Option RGRecord) (rel : SrcRelease)
    (media : List Medium) :
    (mergeRecord old rel media).track_count =
      max ((applyImage (match old with | some r => r | none => initRecord rel)
             rel).track_count)
          (media.flatMap Medium.tracks).length := rfl

lemma mergeRecord_image (old : Option RGRecord) (rel : SrcRelease)
    (media : List Medium) :
    (mergeRecord old rel media).image_url =
      (applyImage (match old with | some r => r | none => initRecord rel)
        rel).image_url := rfl

lemma foldTracks_spec (ts : List SrcTrack) :
    ∀ (acc : List TrackEntry) (seen : List String),
      ∃ extra, foldTracks ts acc seen = acc ++ extra ∧
        (∀ e ∈ extra, e.id ∉ seen) ∧ (extra.map TrackEntry.id).Nodup := by
  induction ts with
  | nil =>
    intro acc seen
    exact ⟨[], by simp [foldTracks], by simp, by simp⟩
  | cons t ts ih =>
    intro acc seen
    by_cases hc : t.recording.id.getD "" ≠ "" ∧ t.recording.id.getD "" ∉ seen
    · obtain ⟨extra, he, hni, hnd⟩ :=
        ih (acc ++ [⟨t.recording.id.getD "", trackTitle t, trackDuration t⟩])
           (t.recording.id.getD "" :: seen)
      refine ⟨⟨t.recording.id.getD "", trackTitle t, trackDuration t⟩ :: extra, ?_, ?_, ?_⟩
      · simp only [foldTracks, if_pos hc]
        rw [he]; simp
      · intro e hmem
        rcases List.mem_cons.mp hmem with rfl | hmem
        · exact hc.2
        · exact fun hin => hni e hmem (List.mem_cons_of_mem _ hin)
      · simp only [List.map_cons, List.nodup_cons]
        refine ⟨?_, hnd⟩
        intro hin
        obtain ⟨e, he', hid⟩ := List.mem_map.mp hin
        exact hni e he' (by rw [hid]; exact List.mem_cons_self _ _)
    · simp only [foldTracks, if_neg hc]
      exact ih acc seen

lemma foldTracks_sub (ts : List SrcTrack) (acc : List TrackEntry) (seen : List String) :
    ∀ x ∈ acc.map TrackEntry.id, x ∈ (foldTracks ts acc seen).map TrackEntry.id := by
  obtain ⟨extra, he, -, -⟩ := foldTracks_spec ts acc seen
  intro x hx
  rw [he, List.map_append]
  exact List.mem_append_left _ hx

lemma foldTracks_mem (ts : List SrcTrack) :
    ∀ (acc : List TrackEntry) (seen : List String),
      (∀ x ∈ seen, x ∈ acc.map TrackEntry.id) →
      ∀ t ∈ ts, t.recording.id.getD "" ≠ "" →
        t.recording.id.getD "" ∈ (foldTracks ts acc seen).map TrackEntry.id := by
  induction ts with
  | nil => simp
  | cons t ts ih =>
    intro acc seen hcov u hu hne
    by_cases hc : t.recording.id.getD "" ≠ "" ∧ t.recording.id.getD "" ∉ seen
    · simp only [foldTracks, if_pos hc]
      rcases List.mem_cons.mp hu with rfl | hu
      · refine foldTracks_sub _ _ _ _ ?_
        simp
      · refine ih _ _ ?_ u hu hne
        intro x hx
        rcases List.mem_cons.mp hx with rfl | hx
        · simp
        · have := hcov x hx
          simp only [List.map_append]
          exact List.mem_append_left _ this
    · simp only [foldTracks, if_neg hc]
      rcases List.mem_cons.mp hu with rfl | hu
      · have hin : u.recording.id.getD "" ∈ seen := by
          by_contra hnin
          exact hc ⟨hne, hnin⟩
        exact foldTracks_sub _ _ _ _ (hcov _ hin)
      · exact ih _ _ hcov u hu hne

lemma foldTracks_noop (ts : List SrcTrack) :
    ∀ (acc : List TrackEntry) (seen : List String),
      (∀ t ∈ ts, t.recording.id.getD "" ≠ "" → t.recording.id.getD "" ∈ seen) →
      foldTracks ts acc seen = acc := by
  induction ts with
  | nil => intro acc seen _; rfl
  | cons t ts ih =>
    intro acc seen h
    have hcond : ¬(t.recording.id.getD "" ≠ "" ∧ t.recording.id.getD "" ∉ seen) := by
      by_cases hne : t.recording.id.getD "" = ""
      · simp [hne]
      · have := h t (List.mem_cons_self _ _) hne
        simp [this]
    simp only [foldTracks, if_neg hcond]
    exact ih acc seen (fun u hu => h u (List.mem_cons_of_mem _ hu))

/-- C1: every release-group record's track list holds each recording id at
most once, and each fold of the merge/dedup engine preserves this: a fold
only appends entries whose ids were not present before (so the first
sighting of a shared recording id fixes the entry, later sightings modify
nothing), and a fold starting from no record yields unique ids. -/
theorem merge_dedup_tracks (rel : SrcRelease) (media : List Medium) :
    (∀ r : RGRecord, uniqueIds r →
      uniqueIds (mergeRecord (some r) rel media) ∧
      (∃ extra, (mergeRecord (some r) rel media).tracks = r.tracks ++ extra ∧
        ∀ e ∈ extra, e.id ∉ r.tracks.map TrackEntry.id) ∧
      (∀ tid, tid ∈ r.tracks.map TrackEntry.id →
        (mergeRecord (some r) rel media).tracks.find? (fun e => e.id == tid) =
          r.tracks.find? (fun e => e.id == tid))) ∧
    uniqueIds (mergeRecord none rel media) := by
  constructor
  · intro r hr
    have htracks : (mergeRecord (some r) rel media).tracks =
        foldTracks (media.flatMap Medium.tracks) r.tracks
          (r.tracks.map TrackEntry.id) := by
      rw [mergeRecord_tracks, applyImage_tracks]
    obtain ⟨extra, he, hni, hnd⟩ :=
      foldTracks_spec (media.flatMap Medium.tracks) r.tracks
        (r.tracks.map TrackEntry.id)
    refine ⟨?_, ⟨extra, by rw [htracks, he], hni⟩, ?_⟩
    · unfold uniqueIds
      rw [htracks, he, List.map_append]
      refine List.Nodup.append hr hnd ?_
      intro a ha1 ha2
      obtain ⟨e, he', hid⟩ := List.mem_map.mp ha2
      exact hni e he' (by rw [hid]; exact ha1)
    · intro tid htid
      rw [htracks, he]
      have hsome : (r.tracks.find? (fun e => e.id == tid)).isSome := by
        rw [List.find?_isSome]
        obtain ⟨e, he', rfl⟩ := List.mem_map.mp htid
        exact ⟨e, he', by simp⟩
      exact find?_append_of_isSome _ _ hsome
  · have htracks : (mergeRecord none rel media).tracks =
        foldTracks (media.flatMap Medium.tracks) [] [] := by
      rw [mergeRecord_tracks, applyImage_tracks]; rfl
    obtain ⟨extra, he, -, hnd⟩ := foldTracks_spec (media.flatMap Medium.tracks) [] []
    unfold uniqueIds
    rw [htracks, he]
    simpa using hnd

/-- Closed instance of `merge_dedup_tracks` at a concrete record, release
and detail payload. -/
theorem merge_dedup_tracks_witness :
    uniqueIds (mergeRecord (some rW) relW mediaW) :=
  ((merge_dedup_tracks relW mediaW).1 rW (by unfold uniqueIds; decide)).1

lemma imageUrlFor_ne (rid : String) : imageUrlFor rid ≠ "" := by
  intro h
  have hlen := congrArg String.length h
  rw [imageUrlFor] at hlen
  rw [String.length_append, String.length_append] at hlen
  have h1 : (0 : Nat) < ("https://coverartarchive.org/release/" : String).length := by
    decide
  have h0 : ("" : String).length = 0 := rfl
  omega

lemma applyImage_truthy (r : RGRecord) (rel : SrcRelease)
    (h : rel.coverFront = true) :
    (applyImage r rel).image_url.getD "" ≠ "" := by
  unfold applyImage
  by_cases hi : r.image_url.getD "" = ""
  · rw [if_pos ⟨hi, h⟩]
    simpa using imageUrlFor_ne rel.id
  · rw [if_neg (fun hc => hi hc.1)]
    exact hi

/-- C2: the merge/dedup engine is idempotent — folding the same (release,
detail) input twice produces the same record as folding it once. -/
theorem merge_idempotent (old : Option RGRecord) (rel : SrcRelease)
    (media : List Medium) :
    mergeRecord (some (mergeRecord old rel media)) rel media =
      mergeRecord old rel media := by
  set m := mergeRecord old rel media with hm
  have himg : applyImage m rel = m := by
    cases hcf : rel.coverFront
    · simp [applyImage, hcf]
    · have h1 : m.image_url.getD "" ≠ "" := by
        rw [hm, mergeRecord_image]
        exact applyImage_truthy _ _ hcf
      simp [applyImage, h1]
  have hts : ∀ t ∈ media.flatMap Medium.tracks, t.recording.id.getD "" ≠ "" →
      t.recording.id.getD "" ∈ m.tracks.map TrackEntry.id := by
    intro t ht hne
    rw [hm, mergeRecord_tracks]
    exact foldTracks_mem _ _ _ (fun x hx => hx) t ht hne
  have htr : foldTracks (media.flatMap Medium.tracks) m.tracks
      (m.tracks.map TrackEntry.id) = m.tracks :=
    foldTracks_noop _ _ _ hts
  have hcnt : max m.track_count (media.flatMap Medium.tracks).length =
      m.track_count := by
    have hle : (media.flatMap Medium.tracks).length ≤ m.track_count := by
      rw [hm, mergeRecord_count]
      exact Nat.le_max_right _ _
    exact Nat.max_eq_left hle
  show { applyImage m rel with
         tracks := foldTracks (media.flatMap Medium.tracks)
           (applyImage m rel).tracks
           ((applyImage m rel).tracks.map TrackEntry.id)
         track_count := max (applyImage m rel).track_count
           (media.flatMap Medium.tracks).length } = m
  rw [himg, htr, hcnt]

/-! ### Crawler lemmas -/

lemma crawlStep_of_processed (st : CrawlState) (inp : SrcRelease × Option (List Medium))
    (h : inp.1.id ∈ st.processed) : crawlStep st inp = st := by
  simp [crawlStep, h]

lemma crawlStep_of_norg (st : CrawlState) (inp : SrcRelease × Option (List Medium))
    (h1 : inp.1.id ∉ st.processed) (h2 : inp.1.releaseGroup.id.getD "" = "") :
    crawlStep st inp = st := by
  simp [crawlStep, h1, h2]

lemma crawlStep_of_noDetail (st : CrawlState) (inp : SrcRelease × Option (List Medium))
    (h1 : inp.1.id ∉ st.processed) (h2 : inp.1.releaseGroup.id.getD "" ≠ "")
    (h3 : inp.2 = none) :
    crawlStep st inp = { st with attempted := st.attempted + 1
                                 fetched := st.fetched ++ [inp.1.id] } := by
  simp [crawlStep, h1, h2, h3]

lemma crawlStep_success_fields (st : CrawlState) (inp : SrcRelease × Option (List Medium))
    (media : List Medium) (h1 : inp.1.id ∉ st.processed)
    (h2 : inp.1.releaseGroup.id.getD "" ≠ "") (h3 : inp.2 = some media) :
    (crawlStep st inp).processed = st.processed ++ [inp.1.id] ∧
    (crawlStep st inp).attempted = st.attempted + 1 ∧
    (crawlStep st inp).ckpts =
      (if (st.attempted + 1) % 10 = 0 then st.ckpts + 1 else st.ckpts) := by
  simp [crawlStep, h1, h2, h3, apply_ite CrawlState.processed,
        apply_ite CrawlState.attempted, apply_ite CrawlState.ckpts]

/-- C3: in the detail phase, a release id enters ProcessedSet exactly when
it was not yet processed, its release group id is truthy and the detail
fetch succeeded; an already-processed id causes no state change at all (in
particular no fetch); and ProcessedSet never loses an element, neither in
one step nor across a whole run. -/
theorem processed_set_discipline :
    (∀ (st : CrawlState) (inp : SrcRelease × Option (List Medium)),
      (inp.1.id ∈ st.processed → crawlStep st inp = st) ∧
      ((crawlStep st inp).processed =
        if inp.1.id ∉ st.processed ∧ inp.1.releaseGroup.id.getD "" ≠ "" ∧
            inp.2.isSome = true
         then st.processed ++ [inp.1.id] else st.processed) ∧
      (∀ x ∈ st.processed, x ∈ (crawlStep st inp).processed)) ∧
    (∀ (inputs : List (SrcRelease × Option (List Medium))) (st : CrawlState),
      ∀ x ∈ st.processed, x ∈ (inputs.foldl crawlStep st).processed) := by
  have hstep : ∀ (st : CrawlState) (inp : SrcRelease × Option (List Medium)),
      (crawlStep st inp).processed =
        if inp.1.id ∉ st.processed ∧ inp.1.releaseGroup.id.getD "" ≠ "" ∧
            inp.2.isSome = true
        then st.processed ++ [inp.1.id] else st.processed := by
    intro st inp
    by_cases h1 : inp.1.id ∈ st.processed
    · rw [crawlStep_of_processed st inp h1]
      simp [h1]
    · by_cases h2 : inp.1.releaseGroup.id.getD "" = ""
      · rw [crawlStep_of_norg st inp h1 h2]
        simp [h2]
      · cases h3 : inp.2 with
        | none =>
          rw [crawlStep_of_noDetail st inp h1 h2 h3]
          simp [h3]
        | some media =>
          rw [(crawlStep_success_fields st inp media h1 h2 h3).1]
          simp [h1, h2, h3]
  have hmono : ∀ (st : CrawlState) (inp : SrcRelease × Option (List Medium)),
      ∀ x ∈ st.processed, x ∈ (crawlStep st inp).processed := by
    intro st inp x hx
    rw [hstep]
    split
    · exact List.mem_append_left _ hx
    · exact hx
  refine ⟨fun st inp =>
    ⟨fun h => crawlStep_of_processed st inp h, hstep st inp, hmono st inp⟩, ?_⟩
  intro inputs
  induction inputs with
  | nil => intro st x hx; exact hx
  | cons i inputs ih =>
    intro st x hx
    rw [List.foldl_cons]
    exact ih _ _ (hmono st i x hx)

/-- Closed instance of `processed_set_discipline`: a release whose id is
already in ProcessedSet is skipped with no state change. -/
theorem processed_set_discipline_witness :
    crawlStep stW (relW, some mediaW) = stW :=
  (processed_set_discipline.1 stW (relW, some mediaW)).1 (by decide)

/-! ### Checkpoint cadence (C7) -/

/-- C7 as stated is false: in a run with ten successes (one detail fetch
failing in between), no periodic checkpoint at all is written, because the
source increments `processed_this_run` before the detail fetch and tests
divisibility only after a success. -/
theorem checkpoint_cadence_cex :
    (crawlRun initCrawl cadenceCexInputs).processed.length = 10 ∧
    (crawlRun initCrawl cadenceCexInputs).ckpts = 0 := by decide

lemma crawl_cadence_inv (inputs : List (SrcRelease × Option (List Medium))) :
    ∀ st : CrawlState, (∀ i ∈ inputs, i.2.isSome = true) →
      st.ckpts = st.attempted / 10 → st.attempted = st.processed.length →
      ((inputs.foldl crawlStep st).ckpts = (inputs.foldl crawlStep st).attempted / 10 ∧
       (inputs.foldl crawlStep st).attempted =
         (inputs.foldl crawlStep st).processed.length) := by
  induction inputs with
  | nil => intro st _ h1 h2; exact ⟨h1, h2⟩
  | cons i inputs ih =>
    intro st hall h1 h2
    rw [List.foldl_cons]
    refine ih _ (fun j hj => hall j (List.mem_cons_of_mem _ hj)) ?_ ?_
    all_goals
      by_cases hm : i.1.id ∈ st.processed
      case pos => rw [crawlStep_of_processed st i hm]; first | exact h1 | exact h2
      case neg => ?_
    all_goals
      by_cases hg : i.1.releaseGroup.id.getD "" = ""
      case pos => rw [crawlStep_of_norg st i hm hg]; first | exact h1 | exact h2
      case neg => ?_
    all_goals
      obtain ⟨media, h3⟩ := Option.isSome_iff_exists.mp (hall i (List.mem_cons_self _ _))
      obtain ⟨hp, ha, hc⟩ := crawlStep_success_fields st i media hm hg h3
    · rw [hc, ha]
      split <;> omega
    · rw [ha, hp]
      simp [h2]

/-- C7 amended: `processed_this_run` counts releases that reach the detail
fetch (including failed fetches), and a periodic checkpoint happens after a
success when that counter is a multiple of 10.  When no detail fetch fails,
the counter equals the number of successes, so a run from a fresh state
performs exactly `successes / 10` periodic checkpoints (150 releases give
15), and the unconditional final persist is always appended. -/
theorem checkpoint_cadence (inputs : List (SrcRelease × Option (List Medium)))
    (hall : ∀ i ∈ inputs, i.2.isSome = true) :
    (crawlRun initCrawl inputs).ckpts =
      (crawlRun initCrawl inputs).processed.length / 10 ∧
    ∃ l, (crawlRun initCrawl inputs).ops = l ++ finalPersistOps := by
  obtain ⟨h1, h2⟩ := crawl_cadence_inv inputs initCrawl hall rfl rfl
  refine ⟨?_, ⟨(inputs.foldl crawlStep initCrawl).ops, rfl⟩⟩
  show (inputs.foldl crawlStep initCrawl).ckpts =
    (inputs.foldl crawlStep initCrawl).processed.length / 10
  rw [h1, h2]

/-- Closed instance of `checkpoint_cadence` on 150 all-successful
releases. -/
theorem checkpoint_cadence_witness :
    (crawlRun initCrawl allSuccessInputs).ckpts =
      (crawlRun initCrawl allSuccessInputs).processed.length / 10 ∧
    ∃ l, (crawlRun initCrawl allSuccessInputs).ops = l ++ finalPersistOps := by
  refine checkpoint_cadence allSuccessInputs ?_
  intro i hi
  simp only [allSuccessInputs, List.mem_map] at hi
  obtain ⟨n, -, rfl⟩ := hi
  rfl

/-! ### Checkpoint atomicity (C4) -/

/-- C4 as stated is false: the periodic checkpoint writes the ProcessedSet
file directly (no temporary file, no rename), so a crash during that write
exposes a torn file; the unconditional final persist writes even the
database file directly. -/
theorem checkpoint_files_not_atomic_cex :
    FileView.partialV ∈ crashViews PROGRESS_FILE periodicCheckpointOps initFs ∧
    FileView.partialV ∈ crashViews OUTPUT_FILE finalPersistOps initFs := by decide

/-- C4 amended: only the periodic checkpoint's database write is atomic —
it goes through a temporary file and a rename, so at every crash point the
canonical database file shows either the complete pre-write or the
complete post-write version; the ProcessedSet checkpoint and the final
persist of both files are plain direct writes that a crash can tear. -/
theorem db_checkpoint_atomic :
    ∀ v ∈ crashViews OUTPUT_FILE periodicCheckpointOps initFs,
      v = FileView.oldV ∨ v = FileView.newV := by decide

/-- Closed instance of `db_checkpoint_atomic` at the initial crash point. -/
theorem db_checkpoint_atomic_witness :
    FileView.oldV ∈ crashViews OUTPUT_FILE periodicCheckpointOps initFs ∧
    (FileView.oldV = FileView.oldV ∨ FileView.oldV = FileView.newV) :=
  ⟨by decide, db_checkpoint_atomic FileView.oldV (by decide)⟩

/-! ### Fetcher retry contract (C8) -/

lemma fetchAux_count {α : Type} (o : Nat → AttemptOutcome α) :
    ∀ (fuel i : Nat), (fetchAux o i fuel).2 ≤ fuel := by
  intro fuel
  induction fuel with
  | zero => intro i; simp [fetchAux]
  | succ fuel ih =>
    intro i
    cases ho : o i <;> simp [fetchAux, ho] <;> exact ih (i + 1)

lemma fetchAux_first_success {α : Type} (o : Nat → AttemptOutcome α) :
    ∀ (fuel i k : Nat) (b : α), k < fuel → o (i + k) = .success b →
      (∀ j, j < k → (o (i + j)).isSuccess = false) →
      (fetchAux o i fuel).1 = some b := by
  intro fuel
  induction fuel with
  | zero => intro i k b hk; omega
  | succ fuel ih =>
    intro i k b hk hs hj
    cases k with
    | zero =>
      simp only [Nat.add_zero] at hs
      simp [fetchAux, hs]
    | succ k =>
      have h0 : (o i).isSuccess = false := by
        have := hj 0 (Nat.succ_pos k)
        simpa using this
      cases ho : o i
      · rw [ho] at h0; simp [AttemptOutcome.isSuccess] at h0
      · simp only [fetchAux, ho]
        refine ih (i + 1) k b (by omega) ?_ ?_
        · rw [show i + 1 + k = i + (k + 1) by omega]
          exact hs
        · intro j hjk
          rw [show i + 1 + j = i + (j + 1) by omega]
          exact hj (j + 1) (by omega)
      · simp only [fetchAux, ho]
        refine ih (i + 1) k b (by omega) ?_ ?_
        · rw [show i + 1 + k = i + (k + 1) by omega]
          exact hs
        · intro j hjk
          rw [show i + 1 + j = i + (j + 1) by omega]
          exact hj (j + 1) (by omega)

lemma fetchAux_all_fail {α : Type} (o : Nat → AttemptOutcome α) :
    ∀ (fuel i : Nat), (∀ j, j < fuel → (o (i + j)).isSuccess = false) →
      (fetchAux o i fuel).1 = none := by
  intro fuel
  induction fuel with
  | zero => intro i _; rfl
  | succ fuel ih =>
    intro i hj
    have h0 : (o i).isSuccess = false := by
      have := hj 0 (Nat.succ_pos fuel)
      simpa using this
    cases ho : o i
    · rw [ho] at h0; simp [AttemptOutcome.isSuccess] at h0
    all_goals
      simp only [fetchAux, ho]
      refine ih (i + 1) ?_
      intro j hjf
      rw [show i + 1 + j = i + (j + 1) by omega]
      exact hj (j + 1) (by omega)

/-- C8: for every sequence of per-attempt outcomes the fetcher makes at
most 5 attempts, returns the parsed body of the first attempt with HTTP
status 200, and returns the definitive `None` (instead of propagating an
exception) when no attempt in the budget succeeds. -/
theorem fetcher_retry_contract {α : Type} (o : Nat → AttemptOutcome α) :
    fetchAttempts o ≤ 5 ∧
    (∀ i b, i < 5 → o i = .success b →
      (∀ j, j < i → (o j).isSuccess = false) → fetch_json o = some b) ∧
    ((∀ i, i < 5 → (o i).isSuccess = false) → fetch_json o = none) := by
  refine ⟨fetchAux_count o 5 0, ?_, ?_⟩
  · intro i b hi hs hj
    refine fetchAux_first_success o 5 0 i b hi ?_ ?_
    · simpa using hs
    · intro j hji
      simpa using hj j hji
  · intro hall
    refine fetchAux_all_fail o 5 0 ?_
    intro j hj
    simpa using hall j hj

/-- Closed instances of `fetcher_retry_contract`: an immediately
successful oracle yields its body, an always-failing oracle yields
`none`. -/
theorem fetcher_retry_contract_witness :
    fetch_json oracleOk = some 7 ∧ fetch_json oracleFail = none := by
  constructor
  · exact (fetcher_retry_contract oracleOk).2.1 0 7 (by decide) rfl
      (fun j hj => absurd hj (Nat.not_lt_zero j))
  · exact (fetcher_retry_contract oracleFail).2.2 (fun i _ => rfl)

/-! ### Sorting lemmas for the lookup builder -/

lemma insertByScore_perm (x : String × RGRecord) (l : List (String × RGRecord)) :
    (insertByScore x l).Perm (x :: l) := by
  induction l with
  | nil => exact List.Perm.refl _
  | cons y ys ih =>
    simp only [insertByScore]
    split
    · exact List.Perm.refl _
    · exact (ih.cons y).trans (List.Perm.swap x y ys)

lemma sortedRGs_perm (db : List (String × RGRecord)) : (sortedRGs db).Perm db := by
  induction db with
  | nil => exact List.Perm.refl _
  | cons x xs ih =>
    simp only [sortedRGs]
    exact (insertByScore_perm x (sortedRGs xs)).trans (ih.cons x)

lemma insertByScore_sorted (x : String × RGRecord) (l : List (String × RGRecord))
    (h : l.Pairwise (fun a b => rg_score b.2 ≤ rg_score a.2)) :
    (insertByScore x l).Pairwise (fun a b => rg_score b.2 ≤ rg_score a.2) := by
  induction l with
  | nil => exact List.pairwise_singleton _ _
  | cons y ys ih =>
    obtain ⟨hy, hys⟩ := List.pairwise_cons.mp h
    simp only [insertByScore]
    split
    case isTrue hc =>
      refine List.Pairwise.cons ?_ h
      intro z hz
      rcases List.mem_cons.mp hz with rfl | hz
      · exact hc
      · exact le_trans (hy z hz) hc
    case isFalse hc =>
      refine List.Pairwise.cons ?_ (ih hys)
      intro z hz
      have hz' := (insertByScore_perm x ys).mem_iff.mp hz
      rcases List.mem_cons.mp hz' with rfl | hz'
      · exact (not_le.mp hc).le
      · exact hy z hz'

lemma sortedRGs_sorted (db : List (String × RGRecord)) :
    (sortedRGs db).Pairwise (fun a b => rg_score b.2 ≤ rg_score a.2) := by
  induction db with
  | nil => simp [sortedRGs]
  | cons x xs ih => simpa only [sortedRGs] using insertByScore_sorted x _ ih

lemma find?_first_of_pairwise {α : Type} {R : α → α → Prop} {p : α → Bool} :
    ∀ {l : List α}, l.Pairwise R → ∀ {a : α}, l.find? p = some a →
      ∀ b ∈ l, p b = true → R a b ∨ a = b := by
  intro l
  induction l with
  | nil => intro _ a h; simp at h
  | cons x xs ih =>
    intro hpw a hf b hb hp
    obtain ⟨hx, hxs⟩ := List.pairwise_cons.mp hpw
    cases hpx : p x
    · simp only [List.find?_cons, hpx] at hf
      rcases List.mem_cons.mp hb with rfl | hb
      · simp [hp] at hpx
      · exact ih hxs hf b hb hp
    · simp only [List.find?_cons, hpx] at hf
      obtain rfl := Option.some.inj hf
      rcases List.mem_cons.mp hb with rfl | hb
      · exact Or.inr rfl
      · exact Or.inl (hx b hb)

/-! ### Projections of the single-pass lookup fold -/

lemma lookupTrackStep_recordings (rgId : String) (lk : Lookup) (t : TrackEntry) :
    (lookupTrackStep rgId lk t).recordings = recTrackStep rgId lk.recordings t := by
  unfold lookupTrackStep recTrackStep
  by_cases ht : t.id = ""
  · simp [ht]
  · by_cases hd : t.duration_ms ≠ 0 <;>
      by_cases hf : alistFind lk.recordings t.id = none <;>
      simp [ht, hd, hf]

lemma lookupTrackStep_durations (rgId : String) (lk : Lookup) (t : TrackEntry) :
    (lookupTrackStep rgId lk t).track_durations = durTrackStep lk.track_durations t := by
  unfold lookupTrackStep durTrackStep
  by_cases ht : t.id = ""
  · simp [ht]
  · by_cases hd : t.duration_ms ≠ 0 <;>
      by_cases hf : alistFind lk.recordings t.id = none <;>
      simp [ht, hd, hf]

lemma lookupTrackStep_rgs (rgId : String) (lk : Lookup) (t : TrackEntry) :
    (lookupTrackStep rgId lk t).release_groups = lk.release_groups := by
  unfold lookupTrackStep
  by_cases ht : t.id = ""
  · simp [ht]
  · by_cases hd : t.duration_ms ≠ 0 <;>
      by_cases hf : alistFind lk.recordings t.id = none <;>
      simp [ht, hd, hf]

lemma trackFold_proj (rgId : String) (tracks : List TrackEntry) :
    ∀ lk : Lookup,
      (tracks.foldl (lookupTrackStep rgId) lk).recordings =
        tracks.foldl (recTrackStep rgId) lk.recordings ∧
      (tracks.foldl (lookupTrackStep rgId) lk).track_durations =
        tracks.foldl durTrackStep lk.track_durations ∧
      (tracks.foldl (lookupTrackStep rgId) lk).release_groups = lk.release_groups := by
  induction tracks with
  | nil => intro lk; exact ⟨rfl, rfl, rfl⟩
  | cons t ts ih =>
    intro lk
    simp only [List.foldl_cons]
    obtain ⟨h1, h2, h3⟩ := ih (lookupTrackStep rgId lk t)
    refine ⟨?_, ?_, ?_⟩
    · rw [h1, lookupTrackStep_recordings]
    · rw [h2, lookupTrackStep_durations]
    · rw [h3, lookupTrackStep_rgs]

lemma groupFold_proj (l : List (String × RGRecord)) :
    ∀ lk : Lookup,
      (l.foldl lookupGroupStep lk).recordings =
        l.foldl (fun recs g => g.2.tracks.foldl (recTrackStep g.1) recs) lk.recordings ∧
      (l.foldl lookupGroupStep lk).track_durations =
        l.foldl (fun durs g => g.2.tracks.foldl durTrackStep durs) lk.track_durations ∧
      (l.foldl lookupGroupStep lk).release_groups =
        l.foldl (fun acc g => alistSet acc g.1 (rgTuple g.2)) lk.release_groups := by
  induction l with
  | nil => intro lk; exact ⟨rfl, rfl, rfl⟩
  | cons g gs ih =>
    intro lk
    simp only [List.foldl_cons]
    obtain ⟨h1, h2, h3⟩ := ih (lookupGroupStep lk g)
    obtain ⟨p1, p2, p3⟩ := trackFold_proj g.1 g.2.tracks
      { lk with release_groups := alistSet lk.release_groups g.1 (rgTuple g.2) }
    have k1 : (lookupGroupStep lk g).recordings =
        g.2.tracks.foldl (recTrackStep g.1) lk.recordings := p1
    have k2 : (lookupGroupStep lk g).track_durations =
        g.2.tracks.foldl durTrackStep lk.track_durations := p2
    have k3 : (lookupGroupStep lk g).release_groups =
        alistSet lk.release_groups g.1 (rgTuple g.2) := p3
    exact ⟨by rw [h1, k1], by rw [h2, k2], by rw [h3, k3]⟩

lemma build_lookup_proj (db : List (String × RGRecord)) :
    (build_lookup db).recordings = recordingsOf (sortedRGs db) ∧
    (build_lookup db).track_durations = durationsOf (sortedRGs db) ∧
    (build_lookup db).release_groups = rgListOf (sortedRGs db) :=
  groupFold_proj (sortedRGs db) _

lemma rgListOf_nodup_eq (l : List (String × RGRecord)) :
    ∀ acc : List (String × (Option String × Option String × Nat × Option String)),
      (l.map Prod.fst).Nodup → (∀ k ∈ l.map Prod.fst, alistFind acc k = none) →
      l.foldl (fun acc g => alistSet acc g.1 (rgTuple g.2)) acc =
        acc ++ l.map (fun g => (g.1, rgTuple g.2)) := by
  induction l with
  | nil => intro acc _ _; simp
  | cons g gs ih =>
    intro acc hnd hnone
    have hnd' : (g.1 :: gs.map Prod.fst).Nodup := by simpa using hnd
    simp only [List.foldl_cons]
    rw [alistSet_of_find_none (hnone g.1 (by simp)) (rgTuple g.2)]
    rw [ih (acc ++ [(g.1, rgTuple g.2)]) (List.nodup_cons.mp hnd').2 ?_]
    · simp
    intro k hk
    rw [alistFind_append, hnone k (by simp [hk])]
    have hne : ¬g.1 = k := by
      intro h
      exact (List.nodup_cons.mp hnd').1 (h ▸ hk)
    simp [alistFind, hne]

/-! ### First-claim characterization of the recordings map -/

lemma recFold_tracks (rgId : String) {tid : String} (htid : tid ≠ "")
    (tracks : List TrackEntry) :
    ∀ recs, alistFind (tracks.foldl (recTrackStep rgId) recs) tid =
      match alistFind recs tid with
      | some v => some v
      | none => if tracks.any (fun t => t.id == tid) then some rgId else none := by
  induction tracks with
  | nil =>
    intro recs
    cases h : alistFind recs tid <;> simp [h]
  | cons t ts ih =>
    intro recs
    simp only [List.foldl_cons]
    rw [ih]
    by_cases ht : t.id = ""
    · have hstep : recTrackStep rgId recs t = recs := by simp [recTrackStep, ht]
      have hne : (t.id == tid) = false := by
        rw [ht]
        exact beq_eq_false_iff_ne.mpr (fun h => htid h.symm)
      rw [hstep, List.any_cons, hne, Bool.false_or]
    · by_cases hf : alistFind recs t.id = none
      · have hstep : recTrackStep rgId recs t = alistSet recs t.id rgId := by
          simp [recTrackStep, ht, hf]
        rw [hstep]
        by_cases he : t.id = tid
        · subst he
          rw [alistFind_alistSet, if_pos rfl, hf, List.any_cons]
          simp
        · have hrw : alistFind (alistSet recs t.id rgId) tid = alistFind recs tid := by
            rw [alistFind_alistSet, if_neg he]
          have hne : (t.id == tid) = false := beq_eq_false_iff_ne.mpr he
          rw [hrw, List.any_cons, hne, Bool.false_or]
      · have hstep : recTrackStep rgId recs t = recs := by
          simp [recTrackStep, ht, hf]
        rw [hstep]
        by_cases he : t.id = tid
        · subst he
          obtain ⟨v, hv⟩ := Option.ne_none_iff_exists'.mp hf
          rw [hv]
        · have hne : (t.id == tid) = false := beq_eq_false_iff_ne.mpr he
          rw [List.any_cons, hne, Bool.false_or]

lemma recFold_groups {tid : String} (htid : tid ≠ "")
    (l : List (String × RGRecord)) :
    ∀ recs, alistFind
        (l.foldl (fun recs g => g.2.tracks.foldl (recTrackStep g.1) recs) recs) tid =
      match alistFind recs tid with
      | some v => some v
      | none => (l.find? (fun g => groupHasRec g tid)).map Prod.fst := by
  induction l with
  | nil =>
    intro recs
    cases h : alistFind recs tid <;> simp [h]
  | cons g gs ih =>
    intro recs
    simp only [List.foldl_cons]
    rw [ih, recFold_tracks g.1 htid g.2.tracks recs]
    cases h : alistFind recs tid
    · by_cases hg : g.2.tracks.any (fun t => t.id == tid) = true
      · have hfind : (g :: gs).find? (fun h => groupHasRec h tid) = some g := by
          simp [List.find?_cons, groupHasRec, hg]
        rw [hg, hfind]
        simp
      · have hg' : (g.2.tracks.any (fun t => t.id == tid)) = false := by
          simpa using hg
        have hfind : (g :: gs).find? (fun h => groupHasRec h tid) =
            gs.find? (fun h => groupHasRec h tid) := by
          simp [List.find?_cons, groupHasRec, hg']
        rw [hg', hfind]
        simp
    · rfl

lemma recordingsOf_char (l : List (String × RGRecord)) {tid : String}
    (htid : tid ≠ "") :
    alistFind (recordingsOf l) tid =
      (l.find? (fun g => groupHasRec g tid)).map Prod.fst := by
  unfold recordingsOf
  rw [recFold_groups htid l []]
  rfl

/-- C5: `release_groups` is emitted in the stable score-descending order,
and `recordings` maps each recording id to the first release group in that
order containing it — hence to a group of maximal canonical score among
the groups containing it.  The `htitles` hypothesis restricts to databases
whose stored titles are strings (on a null title the source itself would
crash in `rg_score`). -/
theorem lookup_order_first_claim (db : List (String × RGRecord))
    (hkeys : (db.map Prod.fst).Nodup)
    (_htitles : ∀ p ∈ db, p.2.title ≠ none) :
    ((build_lookup db).release_groups.map Prod.fst = (sortedRGs db).map Prod.fst) ∧
    ((sortedRGs db).Pairwise (fun a b => rg_score b.2 ≤ rg_score a.2)) ∧
    (∀ tid, tid ≠ "" →
      alistFind (build_lookup db).recordings tid =
        ((sortedRGs db).find? (fun g => groupHasRec g tid)).map Prod.fst) ∧
    (∀ tid g gf, tid ≠ "" → g ∈ db → groupHasRec g tid = true →
      (sortedRGs db).find? (fun h => groupHasRec h tid) = some gf →
      rg_score g.2 ≤ rg_score gf.2) := by
  have hsortkeys : ((sortedRGs db).map Prod.fst).Nodup :=
    ((sortedRGs_perm db).map Prod.fst).nodup_iff.mpr hkeys
  refine ⟨?_, sortedRGs_sorted db, ?_, ?_⟩
  · rw [(build_lookup_proj db).2.2]
    unfold rgListOf
    rw [rgListOf_nodup_eq (sortedRGs db) [] hsortkeys (fun k _ => rfl)]
    simp [List.map_map]
  · intro tid htid
    rw [(build_lookup_proj db).1, recordingsOf_char (sortedRGs db) htid]
  · intro tid g gf htid hg hhas hfind
    have hmem : g ∈ sortedRGs db := (sortedRGs_perm db).mem_iff.mpr hg
    rcases find?_first_of_pairwise (sortedRGs_sorted db) hfind g hmem hhas with h | h
    · exact h
    · rw [h]

/-- Closed instances of `lookup_order_first_claim` on the two-group sample
database with the shared recording id `r`. -/
theorem lookup_order_first_claim_witness :
    ((build_lookup dbW).release_groups.map Prod.fst = (sortedRGs dbW).map Prod.fst) ∧
    alistFind (build_lookup dbW).recordings "r" =
      ((sortedRGs dbW).find? (fun g => groupHasRec g "r")).map Prod.fst ∧
    rg_score grpB.2 ≤ rg_score grpA.2 :=
  ⟨(lookup_order_first_claim dbW (by decide) (by decide)).1,
   (lookup_order_first_claim dbW (by decide) (by decide)).2.2.1 "r" (by decide),
   (lookup_order_first_claim dbW (by decide) (by decide)).2.2.2 "r" grpB grpA
     (by decide) (by decide) (by decide) (by decide)⟩

/-! ### Canonical ranking of the three sample titles (C6) -/

/-- C6 as stated is false: the scoring function does not rank
"Live in Berlin (Live)" above "Greatest Hits".  The live album scores
−200 − 21 = −221 while the compilation scores −100 − 13 = −113, because
the title-length penalty applies in the non-canonical branch too. -/
theorem ranking_cex : ¬ rg_score ghRec < rg_score libRec := by decide

/-- C6 amended: "Low" (canonical, 997) ranks above both of the others, and
"Greatest Hits" (−113) ranks above "Live in Berlin (Live)" (−221): the
per-character length penalty outweighs the difference between the live
(−200) and compilation (−100) tiers for these titles. -/
theorem ranking_scores :
    rg_score lowRec = 997 ∧ rg_score libRec = -221 ∧ rg_score ghRec = -113 ∧
    rg_score libRec < rg_score ghRec ∧ rg_score ghRec < rg_score lowRec := by decide

/-! ### Content of the track-durations map (C9) -/

lemma durTrackStep_values (durs : List (String × Nat)) (t : TrackEntry)
    (h : ∀ pr ∈ durs, pr.2 ≠ 0) : ∀ pr ∈ durTrackStep durs t, pr.2 ≠ 0 := by
  intro pr hpr
  unfold durTrackStep at hpr
  by_cases ht : t.id = ""
  · rw [if_pos ht] at hpr
    exact h pr hpr
  · rw [if_neg ht] at hpr
    by_cases hd : t.duration_ms ≠ 0
    · rw [if_pos hd] at hpr
      rcases mem_alistSet hpr with hpr | rfl
      · exact h pr hpr
      · exact hd
    · rw [if_neg hd] at hpr
      exact h pr hpr

lemma durFold_tracks_values (tracks : List TrackEntry) :
    ∀ durs, (∀ pr ∈ durs, pr.2 ≠ 0) →
      ∀ pr ∈ tracks.foldl durTrackStep durs, pr.2 ≠ 0 := by
  induction tracks with
  | nil => intro durs h; exact h
  | cons t ts ih =>
    intro durs h
    simp only [List.foldl_cons]
    exact ih _ (durTrackStep_values durs t h)

lemma durFold_groups_values (l : List (String × RGRecord)) :
    ∀ durs, (∀ pr ∈ durs, pr.2 ≠ 0) →
      ∀ pr ∈ l.foldl (fun durs g => g.2.tracks.foldl durTrackStep durs) durs,
        pr.2 ≠ 0 := by
  induction l with
  | nil => intro durs h; exact h
  | cons g gs ih =>
    intro durs h
    simp only [List.foldl_cons]
    exact ih _ (durFold_tracks_values g.2.tracks durs h)

lemma durTrackStep_mem (durs : List (String × Nat)) (t : TrackEntry) (tid : String) :
    (alistFind (durTrackStep durs t) tid).isSome = true ↔
      (alistFind durs tid).isSome = true ∨
      (tid ≠ "" ∧ t.id = tid ∧ t.duration_ms ≠ 0) := by
  unfold durTrackStep
  by_cases ht : t.id = ""
  · rw [if_pos ht]
    constructor
    · exact Or.inl
    · rintro (h | ⟨htid, hea, -⟩)
      · exact h
      · exact absurd (hea.symm.trans ht) htid
  · rw [if_neg ht]
    by_cases hd : t.duration_ms ≠ 0
    · rw [if_pos hd]
      by_cases he : t.id = tid
      · rw [alistFind_alistSet, if_pos he]
        constructor
        · intro _
          exact Or.inr ⟨fun h => ht (he.trans h), he, hd⟩
        · intro _
          rfl
      · rw [alistFind_alistSet, if_neg he]
        constructor
        · exact Or.inl
        · rintro (h | ⟨-, hea, -⟩)
          · exact h
          · exact absurd hea he
    · rw [if_neg hd]
      constructor
      · exact Or.inl
      · rintro (h | ⟨-, -, hdd⟩)
        · exact h
        · exact absurd hdd hd

lemma durFold_tracks_mem (tracks : List TrackEntry) :
    ∀ durs tid, (alistFind (tracks.foldl durTrackStep durs) tid).isSome = true ↔
      (alistFind durs tid).isSome = true ∨
      (tid ≠ "" ∧ ∃ t ∈ tracks, t.id = tid ∧ t.duration_ms ≠ 0) := by
  induction tracks with
  | nil => intro durs tid; simp
  | cons t ts ih =>
    intro durs tid
    simp only [List.foldl_cons]
    rw [ih, durTrackStep_mem]
    constructor
    · rintro ((h | ⟨h1, h2, h3⟩) | ⟨h1, u, hu, h2, h3⟩)
      · exact Or.inl h
      · exact Or.inr ⟨h1, t, List.mem_cons_self _ _, h2, h3⟩
      · exact Or.inr ⟨h1, u, List.mem_cons_of_mem _ hu, h2, h3⟩
    · rintro (h | ⟨h1, u, hu, h2, h3⟩)
      · exact Or.inl (Or.inl h)
      · rcases List.mem_cons.mp hu with rfl | hu
        · exact Or.inl (Or.inr ⟨h1, h2, h3⟩)
        · exact Or.inr ⟨h1, u, hu, h2, h3⟩

lemma durFold_groups_mem (l : List (String × RGRecord)) :
    ∀ durs tid, (alistFind
        (l.foldl (fun durs g => g.2.tracks.foldl durTrackStep durs) durs) tid).isSome
          = true ↔
      (alistFind durs tid).isSome = true ∨
      (tid ≠ "" ∧ ∃ g ∈ l, ∃ t ∈ g.2.tracks, t.id = tid ∧ t.duration_ms ≠ 0) := by
  induction l with
  | nil => intro durs tid; simp
  | cons g gs ih =>
    intro durs tid
    simp only [List.foldl_cons]
    rw [ih, durFold_tracks_mem]
    constructor
    · rintro ((h | ⟨h1, u, hu, h2, h3⟩) | ⟨h1, g', hg', rest⟩)
      · exact Or.inl h
      · exact Or.inr ⟨h1, g, List.mem_cons_self _ _, u, hu, h2, h3⟩
      · exact Or.inr ⟨h1, g', List.mem_cons_of_mem _ hg', rest⟩
    · rintro (h | ⟨h1, g', hg', rest⟩)
      · exact Or.inl (Or.inl h)
      · rcases List.mem_cons.mp hg' with rfl | hg'
        · exact Or.inl (Or.inr ⟨h1, rest⟩)
        · exact Or.inr ⟨h1, g', hg', rest⟩

lemma durationsOf_mem (l : List (String × RGRecord)) (tid : String) :
    (alistFind (durationsOf l) tid).isSome = true ↔
      (tid ≠ "" ∧ ∃ g ∈ l, ∃ t ∈ g.2.tracks, t.id = tid ∧ t.duration_ms ≠ 0) := by
  unfold durationsOf
  rw [durFold_groups_mem]
  simp [alistFind]

/-- C9's order-independence is false: the sample database and its swapped
permutation (two groups of equal canonical score sharing recording `r`
with durations 100 and 200) produce different `track_durations` maps,
because a later non-zero duration overwrites an earlier one. -/
theorem track_durations_order_cex :
    dbW.Perm [grpB, grpA] ∧
    (build_lookup dbW).track_durations ≠
      (build_lookup [grpB, grpA]).track_durations := by
  constructor
  · exact List.Perm.swap grpB grpA []
  · decide

/-- C9 amended: `track_durations` holds exactly the recording ids that
occur somewhere with a non-zero duration, every stored value is non-zero,
and that key set is independent of the iteration order; but the stored
value is the last non-zero duration in ranking order, so the full map can
depend on the order (see the counterexample). -/
theorem track_durations_content (db : List (String × RGRecord))
    (_htitles : ∀ p ∈ db, p.2.title ≠ none) :
    (∀ pr ∈ (build_lookup db).track_durations, pr.2 ≠ 0) ∧
    (∀ tid, (alistFind (build_lookup db).track_durations tid).isSome = true ↔
      (tid ≠ "" ∧ ∃ g ∈ db, ∃ t ∈ g.2.tracks, t.id = tid ∧ t.duration_ms ≠ 0)) ∧
    (∀ l1 l2 : List (String × RGRecord), l1.Perm l2 → ∀ tid,
      (alistFind (durationsOf l1) tid).isSome =
        (alistFind (durationsOf l2) tid).isSome) := by
  refine ⟨?_, ?_, ?_⟩
  · rw [(build_lookup_proj db).2.1]
    unfold durationsOf
    exact durFold_groups_values (sortedRGs db) [] (by simp)
  · intro tid
    rw [(build_lookup_proj db).2.1, durationsOf_mem]
    constructor
    · rintro ⟨h1, g, hg, rest⟩
      exact ⟨h1, g, (sortedRGs_perm db).mem_iff.mp hg, rest⟩
    · rintro ⟨h1, g, hg, rest⟩
      exact ⟨h1, g, (sortedRGs_perm db).mem_iff.mpr hg, rest⟩
  · intro l1 l2 hperm tid
    rw [Bool.eq_iff_iff, durationsOf_mem, durationsOf_mem]
    constructor
    · rintro ⟨h1, g, hg, rest⟩
      exact ⟨h1, g, hperm.mem_iff.mp hg, rest⟩
    · rintro ⟨h1, g, hg, rest⟩
      exact ⟨h1, g, hperm.mem_iff.mpr hg, rest⟩

/-- Closed instance of `track_durations_content` on the sample database at
recording id `r`. -/
theorem track_durations_content_witness :
    (alistFind (build_lookup dbW).track_durations "r").isSome = true ↔
      ("r" ≠ "" ∧ ∃ g ∈ dbW, ∃ t ∈ g.2.tracks, t.id = "r" ∧ t.duration_ms ≠ 0) :=
  (track_durations_content dbW (by decide)).2.1 "r"

/-! ### Name-map lemmas (C10) -/

lemma nmAdd_of_find_none {nm : List (String × List (String × String))} {key : String}
    (hf : alistFind nm key = none) (pr : String × String) :
    nmAdd nm key pr = alistSet nm key [pr] := by
  unfold nmAdd
  rw [hf]

lemma nmAdd_of_find_some {nm : List (String × List (String × String))} {key : String}
    {l0 : List (String × String)} (hf : alistFind nm key = some l0)
    (pr : String × String) :
    nmAdd nm key pr = if pr ∈ l0 then nm else alistSet nm key (l0 ++ [pr]) := by
  unfold nmAdd
  rw [hf]

lemma nmAdd_nodup (nm : List (String × List (String × String))) (key : String)
    (pr : String × String)
    (h : ∀ k l, alistFind nm k = some l → l.Nodup) :
    ∀ k l, alistFind (nmAdd nm key pr) k = some l → l.Nodup := by
  intro k l hl
  cases hf : alistFind nm key with
  | none =>
    rw [nmAdd_of_find_none hf pr, alistFind_alistSet] at hl
    by_cases hk : key = k
    · rw [if_pos hk] at hl
      obtain rfl := Option.some.inj hl
      exact List.nodup_singleton _
    · rw [if_neg hk] at hl
      exact h k l hl
  | some l0 =>
    rw [nmAdd_of_find_some hf pr] at hl
    by_cases hp : pr ∈ l0
    · rw [if_pos hp] at hl
      exact h k l hl
    · rw [if_neg hp, alistFind_alistSet] at hl
      by_cases hk : key = k
      · rw [if_pos hk] at hl
        obtain rfl := Option.some.inj hl
        refine List.Nodup.append (h key l0 hf) (List.nodup_singleton _) ?_
        intro a ha hb
        rw [List.mem_singleton] at hb
        subst hb
        exact hp ha
      · rw [if_neg hk] at hl
        exact h k l hl

lemma nmGet_nmAdd_self (nm : List (String × List (String × String))) (key : String)
    (pr : String × String) : pr ∈ nmGet (nmAdd nm key pr) key := by
  unfold nmGet
  cases hf : alistFind nm key with
  | none =>
    rw [nmAdd_of_find_none hf pr, alistFind_alistSet, if_pos rfl]
    simp
  | some l0 =>
    rw [nmAdd_of_find_some hf pr]
    by_cases hp : pr ∈ l0
    · rw [if_pos hp, hf]
      simpa using hp
    · rw [if_neg hp, alistFind_alistSet, if_pos rfl]
      simp

lemma nmGet_nmAdd_mono (nm : List (String × List (String × String))) (key : String)
    (pr : String × String) (k : String) (pr' : String × String)
    (h : pr' ∈ nmGet nm k) : pr' ∈ nmGet (nmAdd nm key pr) k := by
  unfold nmGet at h ⊢
  cases hf : alistFind nm key with
  | none =>
    rw [nmAdd_of_find_none hf pr, alistFind_alistSet]
    by_cases hk : key = k
    · rw [if_pos hk]
      rw [← hk, hf] at h
      simp at h
    · rw [if_neg hk]
      exact h
  | some l0 =>
    rw [nmAdd_of_find_some hf pr]
    by_cases hp : pr ∈ l0
    · rw [if_pos hp]
      exact h
    · rw [if_neg hp, alistFind_alistSet]
      by_cases hk : key = k
      · rw [if_pos hk]
        rw [← hk, hf] at h
        simp only [Option.getD_some] at h ⊢
        exact List.mem_append_left _ h
      · rw [if_neg hk]
        exact h

lemma nameMapTrack_of_empty_id (rgId : String)
    (nm : List (String × List (String × String))) {t : TrackEntry}
    (ht : t.id = "") : nameMapTrack rgId nm t = nm := by
  unfold nameMapTrack
  rw [if_pos ht]

lemma nameMapTrack_of_no_title (rgId : String)
    (nm : List (String × List (String × String))) {t : TrackEntry}
    (ht : ¬t.id = "") (hts : t.title = none) : nameMapTrack rgId nm t = nm := by
  unfold nameMapTrack
  rw [if_neg ht, hts]

lemma nameMapTrack_of_title (rgId : String)
    (nm : List (String × List (String × String))) {t : TrackEntry} {s : String}
    (ht : ¬t.id = "") (hts : t.title = some s) :
    nameMapTrack rgId nm t =
      if s = "" then nm else nmAdd nm (lowerStr s) (t.id, rgId) := by
  unfold nameMapTrack
  rw [if_neg ht, hts]

lemma nameMapTrack_mono (rgId : String) (nm : List (String × List (String × String)))
    (t : TrackEntry) (k : String) (pr' : String × String)
    (h : pr' ∈ nmGet nm k) : pr' ∈ nmGet (nameMapTrack rgId nm t) k := by
  by_cases ht : t.id = ""
  · rw [nameMapTrack_of_empty_id rgId nm ht]
    exact h
  · cases hts : t.title with
    | none =>
      rw [nameMapTrack_of_no_title rgId nm ht hts]
      exact h
    | some s =>
      rw [nameMapTrack_of_title rgId nm ht hts]
      by_cases hs : s = ""
      · rw [if_pos hs]
        exact h
      · rw [if_neg hs]
        exact nmGet_nmAdd_mono nm (lowerStr s) (t.id, rgId) k pr' h

lemma nameMapTrack_nodup (rgId : String) (nm : List (String × List (String × String)))
    (t : TrackEntry) (h : ∀ k l, alistFind nm k = some l → l.Nodup) :
    ∀ k l, alistFind (nameMapTrack rgId nm t) k = some l → l.Nodup := by
  by_cases ht : t.id = ""
  · rw [nameMapTrack_of_empty_id rgId nm ht]
    exact h
  · cases hts : t.title with
    | none =>
      rw [nameMapTrack_of_no_title rgId nm ht hts]
      exact h
    | some s =>
      rw [nameMapTrack_of_title rgId nm ht hts]
      by_cases hs : s = ""
      · rw [if_pos hs]
        exact h
      · rw [if_neg hs]
        exact nmAdd_nodup nm (lowerStr s) (t.id, rgId) h

lemma nmFold_tracks_mono (rgId : String) (tracks : List TrackEntry) :
    ∀ nm k pr', pr' ∈ nmGet nm k →
      pr' ∈ nmGet (tracks.foldl (nameMapTrack rgId) nm) k := by
  induction tracks with
  | nil => intro nm k pr' h; exact h
  | cons t ts ih =>
    intro nm k pr' h
    simp only [List.foldl_cons]
    exact ih _ k pr' (nameMapTrack_mono rgId nm t k pr' h)

lemma nmFold_tracks_nodup (rgId : String) (tracks : List TrackEntry) :
    ∀ nm, (∀ k l, alistFind nm k = some l → l.Nodup) →
      ∀ k l, alistFind (tracks.foldl (nameMapTrack rgId) nm) k = some l → l.Nodup := by
  induction tracks with
  | nil => intro nm h; exact h
  | cons t ts ih =>
    intro nm h
    simp only [List.foldl_cons]
    exact ih _ (nameMapTrack_nodup rgId nm t h)

lemma nmFold_groups_mono (l : List (String × RGRecord)) :
    ∀ nm k pr', pr' ∈ nmGet nm k →
      pr' ∈ nmGet (l.foldl nameMapGroup nm) k := by
  induction l with
  | nil => intro nm k pr' h; exact h
  | cons g gs ih =>
    intro nm k pr' h
    simp only [List.foldl_cons]
    exact ih _ k pr' (nmFold_tracks_mono g.1 g.2.tracks nm k pr' h)

lemma nmFold_groups_nodup (l : List (String × RGRecord)) :
    ∀ nm, (∀ k l', alistFind nm k = some l' → l'.Nodup) →
      ∀ k l', alistFind (l.foldl nameMapGroup nm) k = some l' → l'.Nodup := by
  induction l with
  | nil => intro nm h; exact h
  | cons g gs ih =>
    intro nm h
    simp only [List.foldl_cons]
    exact ih _ (nmFold_tracks_nodup g.1 g.2.tracks nm h)

lemma nmFold_tracks_mem (rgId : String) (tracks : List TrackEntry) :
    ∀ nm t, t ∈ tracks → t.id ≠ "" → ∀ s, t.title = some s → s ≠ "" →
      (t.id, rgId) ∈ nmGet (tracks.foldl (nameMapTrack rgId) nm) (lowerStr s) := by
  induction tracks with
  | nil => intro nm t h; simp at h
  | cons u ts ih =>
    intro nm t hmem hne s hts hs
    simp only [List.foldl_cons]
    rcases List.mem_cons.mp hmem with rfl | hmem
    · have hstep : nameMapTrack rgId nm t = nmAdd nm (lowerStr s) (t.id, rgId) := by
        rw [nameMapTrack_of_title rgId nm hne hts, if_neg hs]
      rw [hstep]
      exact nmFold_tracks_mono rgId ts _ _ _ (nmGet_nmAdd_self nm (lowerStr s) (t.id, rgId))
    · exact ih _ t hmem hne s hts hs

lemma nmFold_groups_mem (db : List (String × RGRecord)) :
    ∀ nm rg r t, (rg, r) ∈ db → t ∈ r.tracks → t.id ≠ "" →
      ∀ s, t.title = some s → s ≠ "" →
      (t.id, rg) ∈ nmGet (db.foldl nameMapGroup nm) (lowerStr s) := by
  induction db with
  | nil => intro nm rg r t h; simp at h
  | cons g gs ih =>
    intro nm rg r t hmem ht hne s hts hs
    simp only [List.foldl_cons]
    rcases List.mem_cons.mp hmem with rfl | hmem
    · exact nmFold_groups_mono gs _ _ _
        (nmFold_tracks_mem rg r.tracks nm t ht hne s hts hs)
    · exact ih _ rg r t hmem ht hne s hts hs

/-- C10: after the name-index build, every candidate list is
duplicate-free, and for every release group and track with a truthy
recording id and a truthy title, the pair (recording id, release-group id)
appears exactly once in the candidate list of the lower-cased title — so
pairs from different groups sharing a normalized name coexist there, each
exactly once. -/
theorem name_map_unique_pairs (db : List (String × RGRecord)) :
    (∀ k l, alistFind (process_metadata db) k = some l → l.Nodup) ∧
    (∀ rg r t, (rg, r) ∈ db → t ∈ r.tracks → t.id ≠ "" →
      ∀ s, t.title = some s → s ≠ "" →
        (nmGet (process_metadata db) (lowerStr s)).countP
          (fun pr => decide (pr = (t.id, rg))) = 1) := by
  have hnodup : ∀ k l, alistFind (process_metadata db) k = some l → l.Nodup := by
    unfold process_metadata
    exact nmFold_groups_nodup db [] (by intro k l h; cases h)
  refine ⟨hnodup, ?_⟩
  intro rg r t hmem ht hne s hts hs
  have hin : (t.id, rg) ∈ nmGet (process_metadata db) (lowerStr s) :=
    nmFold_groups_mem db [] rg r t hmem ht hne s hts hs
  have hnd : (nmGet (process_metadata db) (lowerStr s)).Nodup := by
    unfold nmGet
    cases hf : alistFind (process_metadata db) (lowerStr s)
    · simp
    · simpa using hnodup _ _ hf
  exact List.count_eq_one_of_mem hnd hin

/-- Closed instance of `name_map_unique_pairs`: the two sample groups share
the track name `x`, and each (recording, group) pair occurs exactly once. -/
theorem name_map_unique_pairs_witness :
    (nmGet (process_metadata dbW) (lowerStr "x")).countP
      (fun pr => decide (pr = ("r", "g1"))) = 1 ∧
    (nmGet (process_metadata dbW) (lowerStr "x")).countP
      (fun pr => decide (pr = ("r", "g2"))) = 1 :=
  ⟨(name_map_unique_pairs dbW).2 "g1" grpA.2 ⟨"r", some "x", 100⟩
     (by decide) (by decide) (by decide) "x" (by decide) (by decide),
   (name_map_unique_pairs dbW).2 "g2" grpB.2 ⟨"r", some "x", 200⟩
     (by decide) (by decide) (by decide) "x" (by decide) (by decide)⟩

end BowieTracker
